import Mathlib

/-!
Verification of the Velocity reactive runtime
(crates/velocity-wasm/src/lib.rs): signal/effect dependency tracking,
the resource cache, the hydration/serialization bridge and the error
boundary layer, shallowly embedded in Lean.

Modelling conventions:
* `JsValue` is a small concrete stand-in for the opaque JS values the
  runtime stores; the runtime only clones and compares them.
* The Rust `HashMap`s (`signals`, `effects`, the resource cache) are
  embedded as association lists with lookup / insert-or-replace / erase
  operations; iteration order of a `HashMap` is unspecified, so all
  claims are stated through `lookupA`.
* Effect bodies (opaque JS closures in the source) are embedded as a
  small deep syntax `Body` of signal reads, signal writes (which invoke
  the public `Signal::set` path, i.e. write then notify), reads guarded
  by the truthiness of another signal, and a throwing body.
* The `Runtime` record carries two ghost observation logs that do not
  influence control flow: `invocations` (one entry per effect-body
  invocation, modelling that a body was called) and `errorLog` (one
  entry per caught body failure, modelling the `console::error` report
  in the closure built by `create_effect`).
* Re-entrant notification (`Signal::set` inside an effect body) is
  unbounded in the source; `run_effect` therefore takes a fuel bound on
  the nesting depth and returns the state unchanged when fuel is
  exhausted.  All theorems are stated either for arbitrary positive
  fuel or at concrete inputs with ample fuel.
-/

namespace Velocity

/-- Concrete stand-in for the opaque `JsValue` payload of a signal. -/
inductive JsValue where
  | undefined
  | null
  | boolV (b : Bool)
  | num (n : Int)
  | str (s : String)
deriving DecidableEq, Repr

/-- JS truthiness, used only by the embedded effect bodies
(`if (b()) ...` in generated code). -/
def truthy : JsValue → Bool
  | .undefined => false
  | .null => false
  | .boolV b => b
  | .num n => n != 0
  | .str s => s ≠ ""

/-! ### Association-list embedding of the Rust `HashMap`s -/

/-- `HashMap::get`. -/
def lookupA {κ α : Type} [DecidableEq κ] : List (κ × α) → κ → Option α
  | [], _ => none
  | (k, v) :: t, k' => if k = k' then some v else lookupA t k'

/-- `HashMap::insert` / in-place update through `get_mut`: replace the
binding if the key is present, otherwise append it. -/
def insertA {κ α : Type} [DecidableEq κ] : List (κ × α) → κ → α → List (κ × α)
  | [], k, v => [(k, v)]
  | (k', v') :: t, k, v => if k' = k then (k, v) :: t else (k', v') :: insertA t k v

/-- `HashMap::remove`. -/
def eraseA {κ α : Type} [DecidableEq κ] : List (κ × α) → κ → List (κ × α)
  | [], _ => []
  | (k', v') :: t, k => if k' = k then eraseA t k else (k', v') :: eraseA t k


/-! ### The reactive store -/

/-- Signal id (`SignalId = usize`). -/
abbrev SignalId := Nat
/-- Effect id (`EffectId = usize`). -/
abbrev EffectId := Nat

/-- Embedded effect body.  Each constructor carries its continuation;
`condRead` reads the guard signal (recording a dependency edge exactly
like any read) and then runs one of its two branches depending on the
truthiness of the value read; `fail` models a body that throws. -/
inductive Body where
  | nil
  | read (s : SignalId) (k : Body)
  | write (s : SignalId) (v : JsValue) (k : Body)
  | condRead (s : SignalId) (t e : Body) (k : Body)
  | fail (msg : String)
deriving DecidableEq, Repr

/-- `struct SignalState { value, subscribers }`. -/
structure SignalState where
  value : JsValue
  subscribers : List EffectId
deriving DecidableEq, Repr

/-- `struct Effect { func, dependencies }`; the opaque closure is the
embedded `Body`. -/
structure Effect where
  body : Body
  dependencies : List SignalId
deriving DecidableEq, Repr

/-- The thread-local `RUNTIME` together with the thread-local
`CURRENT_EFFECT` slot, plus the two ghost observation logs. -/
structure Runtime where
  nextSignalId : SignalId
  nextEffectId : EffectId
  signals : List (SignalId × SignalState)
  effects : List (EffectId × Effect)
  current : Option EffectId
  invocations : List EffectId
  errorLog : List (EffectId × String)
deriving DecidableEq, Repr

/-- `Runtime::new()` with both thread-locals fresh. -/
def initRuntime : Runtime :=
  { nextSignalId := 0, nextEffectId := 0, signals := [], effects := []
    current := none, invocations := [], errorLog := [] }

/-- Stored value of a signal (`undefined` when the id is dead). -/
def valueOf (rt : Runtime) (s : SignalId) : JsValue :=
  match lookupA rt.signals s with
  | some st => st.value
  | none => .undefined

/-- Subscriber list of a signal (empty when the id is dead). -/
def subsOf (rt : Runtime) (s : SignalId) : List EffectId :=
  match lookupA rt.signals s with
  | some st => st.subscribers
  | none => []

/-- Dependency list of an effect (empty when the id is dead). -/
def depsOf (rt : Runtime) (e : EffectId) : List SignalId :=
  match lookupA rt.effects e with
  | some eff => eff.dependencies
  | none => []

/-- `Runtime::create_signal`. -/
def create_signal (rt : Runtime) (initial : JsValue) : Runtime × SignalId :=
  let id := rt.nextSignalId
  ({ rt with
      nextSignalId := id + 1
      signals := insertA rt.signals id { value := initial, subscribers := [] } },
   id)

/-- First tracking block of `Runtime::read_signal`: push the active
effect onto the signal's subscriber list unless already present (or
the signal is dead). -/
def addSubscriber (rt : Runtime) (id : SignalId) (eid : EffectId) : Runtime :=
  match lookupA rt.signals id with
  | some st =>
      if eid ∈ st.subscribers then rt
      else { rt with signals :=
               (insertA rt.signals id
                 ({ st with subscribers := st.subscribers ++ [eid] })) }
  | none => rt

/-- Second tracking block of `Runtime::read_signal`: push the signal
onto the active effect's dependency list unless already present (or
the effect is dead). -/
def addDependency (rt : Runtime) (eid : EffectId) (id : SignalId) : Runtime :=
  match lookupA rt.effects eid with
  | some e =>
      if id ∈ e.dependencies then rt
      else { rt with effects :=
               (insertA rt.effects eid
                 ({ e with dependencies := e.dependencies ++ [id] })) }
  | none => rt

/-- `Runtime::read_signal`: when a computation is active, add an edge
in both directions (each addition idempotent), then return the stored
value (`UNDEFINED` when the signal does not exist). -/
def read_signal (rt : Runtime) (id : SignalId) : Runtime × JsValue :=
  let rt1 :=
    match rt.current with
    | some eid => addDependency (addSubscriber rt id eid) eid id
    | none => rt
  (rt1, valueOf rt1 id)

/-- `Runtime::write_signal`: snapshot the subscriber list before
mutating, replace the stored value, and return the captured list;
it runs nothing itself. -/
def write_signal (rt : Runtime) (id : SignalId) (v : JsValue) :
    Runtime × List EffectId :=
  let subs :=
    match lookupA rt.signals id with
    | some st => st.subscribers
    | none => []
  let rt1 :=
    match lookupA rt.signals id with
    | some st => { rt with signals := insertA rt.signals id ({ st with value := v }) }
    | none => rt
  (rt1, subs)

/-- One `signal.subscribers.retain(|&e| e != id)` step of the cleanup
loop in `Runtime::run_effect`. -/
def removeSub (rt : Runtime) (sid : SignalId) (eid : EffectId) : Runtime :=
  match lookupA rt.signals sid with
  | some st =>
      { rt with signals :=
          (insertA rt.signals sid
            ({ st with subscribers := st.subscribers.filter (fun e => decide (e ≠ eid)) })) }
  | none => rt

/-- The `effect.dependencies.clear()` step of `Runtime::run_effect`. -/
def clearDeps (rt : Runtime) (id : EffectId) : Runtime :=
  match lookupA rt.effects id with
  | some e => { rt with effects := insertA rt.effects id ({ e with dependencies := [] }) }
  | none => rt

/-- The preparation phase of `Runtime::run_effect`: read the old
dependency list, remove the effect from each of those signals'
subscriber lists, then clear the dependency list. -/
def cleanupEffect (rt : Runtime) (id : EffectId) : Runtime :=
  clearDeps ((depsOf rt id).foldl (fun r s => removeSub r s id) rt) id

/-- Execution of an effect body.  `runE` is the effect runner used for
the write → notify path (`Signal::set`: `write_signal` followed by
running each captured subscriber in order).  A `fail` aborts the rest
of the body with the thrown message, exactly like a JS exception. -/
def execBodyWith (runE : Runtime → EffectId → Runtime) :
    Runtime → Body → Runtime × Option String
  | rt, .nil => (rt, none)
  | rt, .read s k => execBodyWith runE (read_signal rt s).1 k
  | rt, .write s v k =>
      let p := write_signal rt s v
      execBodyWith runE (p.2.foldl runE p.1) k
  | rt, .condRead s t e k =>
      let p := read_signal rt s
      match (if truthy p.2 then execBodyWith runE p.1 t else execBodyWith runE p.1 e) with
      | (rt2, none) => execBodyWith runE rt2 k
      | r => r
  | rt, .fail msg => (rt, some msg)

/-- The catching wrapper that `create_effect` builds around the body:
record the invocation, run the body, and turn a failure into an error
report (ghost `errorLog` entry, modelling `console::error`) instead of
re-throwing; the body is executed exactly once, with no retry. -/
def runBodyCaught (runE : Runtime → EffectId → Runtime)
    (rt : Runtime) (id : EffectId) (b : Body) : Runtime :=
  let rt1 := { rt with invocations := rt.invocations ++ [id] }
  match execBodyWith runE rt1 b with
  | (rt2, none) => rt2
  | (rt2, some e) => { rt2 with errorLog := rt2.errorLog ++ [(id, e)] }

/-- `Runtime::run_effect`: cleanup, set `CURRENT_EFFECT = Some(id)`,
invoke the effect's (catching) closure if the effect exists, then
unconditionally set `CURRENT_EFFECT = None` — the slot is neither
saved nor restored.  `fuel` bounds write → notify nesting depth. -/
def run_effect : Nat → Runtime → EffectId → Runtime
  | 0, rt, _ => rt
  | fuel + 1, rt, id =>
      let rt1 := cleanupEffect rt id
      let rt2 := { rt1 with current := some id }
      let rt3 :=
        match lookupA rt2.effects id with
        | some e => runBodyCaught (run_effect fuel) rt2 id e.body
        | none => rt2
      { rt3 with current := none }

/-- The public `Signal::set`: write, then run each captured subscriber
in order (synchronously, unbatched). -/
def signal_set (fuel : Nat) (rt : Runtime) (id : SignalId) (v : JsValue) : Runtime :=
  let p := write_signal rt id v
  p.2.foldl (run_effect fuel) p.1

/-- `create_effect`: register the effect with an empty dependency
list, then immediately perform one run. -/
def create_effect (fuel : Nat) (rt : Runtime) (b : Body) : Runtime × EffectId :=
  let id := rt.nextEffectId
  let rt1 := { rt with
                 nextEffectId := id + 1
                 effects := insertA rt.effects id { body := b, dependencies := [] } }
  (run_effect fuel rt1 id, id)

/-! ### Resource cache (Data Layer, Phase 5)

Fetchers are opaque `js_sys::Function`s; cloning a JS function handle
yields the same function, so a fetcher is embedded as a numeric handle.
`spawn_local` dispatches are recorded in the ghost `dispatched` log (one
entry per dispatched fetch); the asynchronous completion is the separate
`complete_fetch` transition below.  `js_sys::Date::now()` is embedded as
the cache's ambient `now` field. -/

/-- Handle of an opaque fetcher function. -/
abbrev FetcherId := Nat

/-- `struct ResourceState { data, loading, error, timestamp, refetch_fn }`. -/
structure ResourceState where
  data : JsValue
  loading : Bool
  error : Option String
  timestamp : Nat
  refetch_fn : Option FetcherId
deriving DecidableEq, Repr

/-- The thread-local `RESOURCE_CACHE` plus the ghost dispatch log and
the ambient clock. -/
structure ResourceCache where
  entries : List (String × ResourceState)
  dispatched : List (String × FetcherId)
  now : Nat
deriving DecidableEq, Repr

/-- An empty cache. -/
def initCache : ResourceCache := { entries := [], dispatched := [], now := 0 }

/-- The `[data, loading, error]` triple that `create_resource` and
`get_resource_state` push into a JS array (`error` rendered as a JS
string or `NULL`). -/
def tripleOf (st : ResourceState) : JsValue × Bool × JsValue :=
  (st.data, st.loading,
   match st.error with
   | some e => .str e
   | none => .null)

/-- `create_resource`: if the key has an entry (any state), return its
current triple synchronously and dispatch nothing; otherwise insert a
loading entry (retaining the fetcher), dispatch the fetcher, and return
the loading triple. -/
def create_resource (c : ResourceCache) (key : String) (fetcher : FetcherId) :
    ResourceCache × (JsValue × Bool × JsValue) :=
  match lookupA c.entries key with
  | some st => (c, tripleOf st)
  | none =>
      ({ c with
          entries := insertA c.entries key
            { data := .null, loading := true, error := none
              timestamp := c.now, refetch_fn := some fetcher }
          dispatched := c.dispatched ++ [(key, fetcher)] },
       (.null, true, .null))

/-- The `spawn_local` completion closure in `create_resource`: mutate
the entry under the captured key in place — only if it still exists —
to ready data or to an error message. -/
def complete_fetch (c : ResourceCache) (key : String)
    (result : Except String JsValue) : ResourceCache :=
  match lookupA c.entries key with
  | none => c
  | some st =>
      match result with
      | .ok d =>
          { c with entries :=
              (insertA c.entries key
                ({ st with data := d, loading := false, error := none, timestamp := c.now })) }
      | .error e =>
          { c with entries :=
              (insertA c.entries key
                ({ st with loading := false, error := some e, timestamp := c.now })) }

/-- `invalidate_resource`: remove the entry outright. -/
def invalidate_resource (c : ResourceCache) (key : String) : ResourceCache :=
  { c with entries := eraseA c.entries key }

/-! ### Hydration / serialization bridge (Phases 4 and 6) -/

/-- The snapshot object built by `serialize_state`: a `signals` map
(the JS key `"signal_{id}"` round-trips with the id through
`format!`/`strip_prefix`/`parse`, so it is embedded as the id itself)
and a `resources` map holding only `{data, loading}` per entry — the
object literal has no `error` member. -/
structure Snapshot where
  signals : List (SignalId × JsValue)
  resources : List (String × (JsValue × Bool))
deriving DecidableEq, Repr

/-- `serialize_state`: capture every live signal's current value by id
and every resource entry's `{data, loading}`. -/
def serialize_state (rt : Runtime) (c : ResourceCache) : Snapshot :=
  { signals := rt.signals.map (fun p => (p.1, p.2.value))
    resources := c.entries.map (fun p => (p.1, (p.2.data, p.2.loading))) }

/-- `deserialize_signal_state`: overwrite the stored value directly —
only when the signal exists in the live store — without touching
subscribers, effects or `CURRENT_EFFECT`. -/
def deserialize_signal_state (rt : Runtime) (id : SignalId) (v : JsValue) : Runtime :=
  match lookupA rt.signals id with
  | some st => { rt with signals := insertA rt.signals id ({ st with value := v }) }
  | none => rt

/-- `deserialize_state`: restore each signal of the snapshot through
`deserialize_signal_state`.  The `resources` section of the snapshot is
never read: the resource cache is left exactly as it was. -/
def deserialize_state (rt : Runtime) (c : ResourceCache) (snap : Snapshot) :
    Runtime × ResourceCache :=
  (snap.signals.foldl (fun r p => deserialize_signal_state r p.1 p.2) rt, c)

/-! ### Error boundary layer (Phase 7)

Components, fallbacks and handlers are opaque JS functions; a
component/fallback is embedded by the outcome of calling it (`Except`
failure value or returned value), a handler by a numeric handle.  The
ghost second result of `create_error_boundary` lists the handler
invocations the guarded call performed, in order, with the failure
value each one received. -/

/-- Invoking the guarded closure returned by `create_error_boundary`:
on success return the component's result and call no handler; on
failure call every registered handler in order with the failure value,
then return the fallback's result (`NULL` if the fallback itself
fails, via `unwrap_or`). -/
def create_error_boundary (handlers : List Nat)
    (component fallback : Except JsValue JsValue) :
    JsValue × List (Nat × JsValue) :=
  match component with
  | .ok v => (v, [])
  | .error e =>
      ((match fallback with
        | .ok v => v
        | .error _ => .null),
       handlers.map (fun h => (h, e)))

/-- `on_error`: append a handler to the global registration list. -/
def on_error (handlers : List Nat) (h : Nat) : List Nat :=
  handlers ++ [h]

/-! ### Observation functions for the dependency-tracking claim -/

/-- A body is pure when it only reads (possibly conditionally): no
writes (which could trigger nested effect runs) and no throw. -/
def isPure : Body → Bool
  | .nil => true
  | .read _ k => isPure k
  | .write _ _ _ => false
  | .condRead _ t e k => isPure t && isPure e && isPure k
  | .fail _ => false

/-- The signal ids a body reads when executed against the values of
`rt`, in order: a `read` logs its signal, a `condRead` logs the guard
signal and then the reads of the branch selected by the guard's
truthiness.  For bodies without writes the stored values never change
during the run, so this is exactly the read trace of the execution. -/
def bodyReads (rt : Runtime) : Body → List SignalId
  | .nil => []
  | .read s k => s :: bodyReads rt k
  | .write _ _ k => bodyReads rt k
  | .condRead s t e k =>
      s :: ((if truthy (valueOf rt s) then bodyReads rt t else bodyReads rt e) ++
            bodyReads rt k)
  | .fail _ => []

/-- Pre-state consistency used by the dependency-tracking claim: every
signal that lists `id` as a subscriber is among `id`'s recorded
dependencies.  This holds for every state the runtime itself produces
(edges are only ever added in both directions at once and removed
together by the cleanup phase). -/
def SubsConsistent (rt : Runtime) (id : EffectId) : Prop :=
  ∀ p ∈ rt.signals, id ∈ p.2.subscribers → p.1 ∈ depsOf rt id

instance (rt : Runtime) (id : EffectId) : Decidable (SubsConsistent rt id) :=
  List.decidableBAll _ rt.signals

/-- Invariant relating the mid-run state `rt` to the body-start state
`rt0` after the running effect `id` has performed the reads `acc`:
the `CURRENT_EFFECT` slot still holds `id`; values and the signal
domain are unchanged; `id` subscribes exactly to the live signals in
`acc`; other effects' subscriptions are untouched; `id`'s dependency
list collects exactly `acc` (body unchanged); other effects are
untouched. -/
structure Mid (id : EffectId) (rt0 rt : Runtime) (acc : List SignalId) : Prop where
  curr : rt.current = some id
  vals : ∀ s, valueOf rt s = valueOf rt0 s
  dom : ∀ s, (lookupA rt.signals s).isSome = (lookupA rt0.signals s).isSome
  subSelf : ∀ s, id ∈ subsOf rt s ↔ (s ∈ acc ∧ (lookupA rt0.signals s).isSome)
  subOther : ∀ s j, j ≠ id → (j ∈ subsOf rt s ↔ j ∈ subsOf rt0 s)
  effSelf : ∃ e0 d, lookupA rt0.effects id = some e0 ∧
      lookupA rt.effects id = some { body := e0.body, dependencies := d } ∧
      (∀ x, x ∈ d ↔ x ∈ acc)
  effOther : ∀ j, j ≠ id → lookupA rt.effects j = lookupA rt0.effects j

/-! ### Concrete stores and scenarios used by the claims -/

/-- Body of the C1 scenario effect: read signal 1 (A) only while
signal 0 (B) is truthy. -/
def condBody : Body := .condRead 0 (.read 1 .nil) .nil .nil

/-- C1 scenario, step 0: signal 0 (B) true, signal 1 (A) `0`, effect 0
with body `condBody` created (and run once at creation). -/
def scen0 : Runtime :=
  let p1 := create_signal initRuntime (.boolV true)
  let p2 := create_signal p1.1 (.num 0)
  (create_effect 3 p2.1 condBody).1

/-- C1 scenario, step 1: set B false — the effect re-runs and drops
its subscription to A. -/
def scen1 : Runtime := signal_set 3 scen0 0 (.boolV false)

/-- C1 scenario, step 2: set A while B is false. -/
def scen2 : Runtime := signal_set 3 scen1 1 (.num 7)

/-- C1 scenario, step 3: set B true again — the effect re-runs and
resubscribes to A. -/
def scen3 : Runtime := signal_set 3 scen2 0 (.boolV true)

/-- Concrete store for the C1 witness: one signal, one registered
effect that reads it. -/
def c1wRt : Runtime :=
  { initRuntime with
      nextSignalId := 1
      nextEffectId := 1
      signals := [(0, { value := .num 0, subscribers := [] })]
      effects := [(0, { body := .read 0 .nil, dependencies := [] })] }

/-- Concrete store with one signal holding `1`. -/
def wRt : Runtime := (create_signal initRuntime (.num 1)).1

/-- Server-side cache holding one resolved-with-error entry, for the
C2 counterexample. -/
def c2srvCache : ResourceCache :=
  { entries := [("k", { data := .num 1, loading := false, error := some "boom",
                        timestamp := 0, refetch_fn := none })]
    dispatched := [], now := 0 }

/-- Effect body that writes signal 0 (whose subscriber effect then runs
re-entrantly) and afterwards reads signal 1. -/
def reBody : Body := .write 0 (.num 5) (.read 1 .nil)

/-- Runtime after: create signals 0 and 1, create effect 0 reading
signal 0, then create effect 1 with body `reBody` (which runs at
creation and re-entrantly triggers effect 0). -/
def reScen : Runtime :=
  let p1 := create_signal initRuntime (.num 0)
  let p2 := create_signal p1.1 (.num 1)
  let q1 := create_effect 4 p2.1 (.read 0 .nil)
  (create_effect 4 q1.1 reBody).1

/-- Server store holding signal 0 with value 42, for the C7 witness. -/
def c7srv : Runtime := (create_signal initRuntime (.num 42)).1

/-- Client store holding signal 0 with value 0 and a live subscriber,
for the C7 witness. -/
def c7cli : Runtime :=
  { initRuntime with
      nextSignalId := 1
      signals := [(0, { value := .num 0, subscribers := [3] })] }

/-! ### Basic lemmas about the store operations -/

theorem lookupA_insertA_self {κ α : Type} [DecidableEq κ]
    (l : List (κ × α)) (k : κ) (v : α) : lookupA (insertA l k v) k = some v := by
  induction l with
  | nil => simp [insertA, lookupA]
  | cons p t ih =>
      obtain ⟨k', v'⟩ := p
      by_cases h : k' = k <;> simp [insertA, lookupA, h, ih]

theorem lookupA_insertA_ne {κ α : Type} [DecidableEq κ]
    (l : List (κ × α)) (k k' : κ) (v : α) (h : k ≠ k') :
    lookupA (insertA l k v) k' = lookupA l k' := by
  induction l with
  | nil => simp [insertA, lookupA, h]
  | cons p t ih =>
      obtain ⟨k₀, v₀⟩ := p
      by_cases h0 : k₀ = k
      · subst h0; simp [insertA, lookupA, h]
      · simp [insertA, lookupA, h0, ih]

theorem lookupA_eraseA_self {κ α : Type} [DecidableEq κ]
    (l : List (κ × α)) (k : κ) : lookupA (eraseA l k) k = none := by
  induction l with
  | nil => simp [eraseA, lookupA]
  | cons p t ih =>
      obtain ⟨k', v'⟩ := p
      by_cases h : k' = k <;> simp [eraseA, lookupA, h, ih]

theorem lookupA_eraseA_ne {κ α : Type} [DecidableEq κ]
    (l : List (κ × α)) (k k' : κ) (h : k ≠ k') :
    lookupA (eraseA l k) k' = lookupA l k' := by
  induction l with
  | nil => simp [eraseA]
  | cons p t ih =>
      obtain ⟨k₀, v₀⟩ := p
      by_cases h0 : k₀ = k
      · subst h0
        have hk : ¬ (k₀ = k') := fun hc => h hc
        simp [eraseA, lookupA, hk, ih]
      · simp [eraseA, lookupA, h0, ih]

theorem lookupA_map_value {κ α β : Type} [DecidableEq κ]
    (l : List (κ × α)) (f : α → β) (k : κ) :
    lookupA (l.map (fun p => (p.1, f p.2))) k = (lookupA l k).map f := by
  induction l with
  | nil => simp [lookupA]
  | cons p t ih =>
      obtain ⟨k', v'⟩ := p
      by_cases h : k' = k <;> simp [lookupA, h, ih]

theorem addSubscriber_effects (rt : Runtime) (s : SignalId) (eid : EffectId) :
    (addSubscriber rt s eid).effects = rt.effects := by
  unfold addSubscriber
  split
  · split <;> rfl
  · rfl

theorem addSubscriber_current (rt : Runtime) (s : SignalId) (eid : EffectId) :
    (addSubscriber rt s eid).current = rt.current := by
  unfold addSubscriber
  split
  · split <;> rfl
  · rfl

theorem addSubscriber_valueOf (rt : Runtime) (s : SignalId) (eid : EffectId) (x : SignalId) :
    valueOf (addSubscriber rt s eid) x = valueOf rt x := by
  unfold addSubscriber
  split
  next st hst =>
    split
    · rfl
    · unfold valueOf
      by_cases hx : s = x
      · subst hx
        simp [lookupA_insertA_self, hst]
      · simp [lookupA_insertA_ne _ _ _ _ hx]
  next => rfl

theorem addSubscriber_isSome (rt : Runtime) (s : SignalId) (eid : EffectId) (x : SignalId) :
    (lookupA (addSubscriber rt s eid).signals x).isSome = (lookupA rt.signals x).isSome := by
  unfold addSubscriber
  split
  next st hst =>
    split
    · rfl
    · by_cases hx : s = x
      · subst hx
        simp [lookupA_insertA_self, hst]
      · simp [lookupA_insertA_ne _ _ _ _ hx]
  next => rfl

theorem addSubscriber_subsOf_ne (rt : Runtime) (s : SignalId) (eid : EffectId)
    (x : SignalId) (hx : x ≠ s) :
    subsOf (addSubscriber rt s eid) x = subsOf rt x := by
  unfold addSubscriber
  split
  next st hst =>
    split
    · rfl
    · unfold subsOf
      simp [lookupA_insertA_ne _ _ _ _ (fun h => hx h.symm)]
  next => rfl

theorem addSubscriber_mem_self (rt : Runtime) (s : SignalId) (eid : EffectId) :
    eid ∈ subsOf (addSubscriber rt s eid) s ↔ (lookupA rt.signals s).isSome := by
  unfold addSubscriber
  split
  next st hst =>
    split
    next hmem =>
      unfold subsOf
      simp [hst, hmem]
    next hmem =>
      unfold subsOf
      simp [lookupA_insertA_self, hst]
  next hst =>
    unfold subsOf
    simp [hst]

theorem addSubscriber_mem_other (rt : Runtime) (s : SignalId) (eid : EffectId)
    (x : SignalId) (j : EffectId) (hj : j ≠ eid) :
    (j ∈ subsOf (addSubscriber rt s eid) x ↔ j ∈ subsOf rt x) := by
  unfold addSubscriber
  split
  next st hst =>
    split
    · rfl
    · unfold subsOf
      by_cases hx : s = x
      · subst hx
        simp [lookupA_insertA_self, hst, hj]
      · simp [lookupA_insertA_ne _ _ _ _ hx]
  next => rfl

theorem addDependency_signals (rt : Runtime) (eid : EffectId) (s : SignalId) :
    (addDependency rt eid s).signals = rt.signals := by
  unfold addDependency
  split
  · split <;> rfl
  · rfl

theorem addDependency_current (rt : Runtime) (eid : EffectId) (s : SignalId) :
    (addDependency rt eid s).current = rt.current := by
  unfold addDependency
  split
  · split <;> rfl
  · rfl

theorem addDependency_effects_other (rt : Runtime) (eid : EffectId) (s : SignalId)
    (j : EffectId) (hj : j ≠ eid) :
    lookupA (addDependency rt eid s).effects j = lookupA rt.effects j := by
  unfold addDependency
  split
  next e he =>
    split
    · rfl
    · simp [lookupA_insertA_ne _ _ _ _ (fun h => hj h.symm)]
  next => rfl

theorem addDependency_lookup_self (rt : Runtime) (eid : EffectId) (s : SignalId)
    (e : Effect) (he : lookupA rt.effects eid = some e) :
    ∃ d, lookupA (addDependency rt eid s).effects eid = some { body := e.body, dependencies := d } ∧
      ∀ x, x ∈ d ↔ (x = s ∨ x ∈ e.dependencies) := by
  unfold addDependency
  rw [he]
  by_cases hmem : s ∈ e.dependencies
  · refine ⟨e.dependencies, ?_, ?_⟩
    · simp [hmem, he]
    · intro x
      constructor
      · intro hx; exact Or.inr hx
      · rintro (rfl | hx)
        · exact hmem
        · exact hx
  · refine ⟨e.dependencies ++ [s], ?_, ?_⟩
    · simp [hmem, lookupA_insertA_self]
    · intro x
      simp [or_comm]

theorem valueOf_eq_of_signals {rt1 rt2 : Runtime} (h : rt1.signals = rt2.signals)
    (x : SignalId) : valueOf rt1 x = valueOf rt2 x := by
  unfold valueOf
  rw [h]

theorem subsOf_eq_of_signals {rt1 rt2 : Runtime} (h : rt1.signals = rt2.signals)
    (x : SignalId) : subsOf rt1 x = subsOf rt2 x := by
  unfold subsOf
  rw [h]

/-- The value returned by `read_signal` is the stored value: the
tracking phase never changes any signal's value. -/
theorem read_signal_snd (rt : Runtime) (s : SignalId) :
    (read_signal rt s).2 = valueOf rt s := by
  unfold read_signal
  cases hc : rt.current with
  | none => rfl
  | some eid =>
      simp only
      rw [valueOf_eq_of_signals (addDependency_signals _ _ _) s,
          addSubscriber_valueOf]

/-- `read_signal` with no active computation leaves the runtime
untouched. -/
theorem read_signal_no_current (rt : Runtime) (s : SignalId) (h : rt.current = none) :
    (read_signal rt s).1 = rt := by
  unfold read_signal
  rw [h]

/-- C6 helper: characterization of `write_signal` on a live signal. -/
theorem write_signal_live (rt : Runtime) (id : SignalId) (v : JsValue)
    (st : SignalState) (h : lookupA rt.signals id = some st) :
    write_signal rt id v =
      ({ rt with signals := insertA rt.signals id ({ st with value := v }) },
       st.subscribers) := by
  unfold write_signal
  rw [h]

/-- C6. For every live signal id, `write(id, v)` captures the
subscriber list of the pre-state, returns exactly that captured list,
and changes nothing but the stored value — in particular it touches no
effect, runs no body (ghost `invocations` unchanged) and leaves every
subscriber list as it was; afterwards, with no intervening effect
mutation, `read(id)` returns `v`. -/
theorem c6_write_then_read (rt : Runtime) (id : SignalId) (v : JsValue)
    (st : SignalState) (h : lookupA rt.signals id = some st) :
    write_signal rt id v =
      ({ rt with signals := insertA rt.signals id ({ st with value := v }) },
       st.subscribers) ∧
    (read_signal (write_signal rt id v).1 id).2 = v := by
  refine ⟨write_signal_live rt id v st h, ?_⟩
  rw [read_signal_snd, write_signal_live rt id v st h]
  unfold valueOf
  simp [lookupA_insertA_self]

/-- Witness for C6 at a concrete input. -/
theorem c6_write_then_read_witness :
    (read_signal (write_signal wRt 0 (JsValue.num 2)).1 0).2 = JsValue.num 2 :=
  (c6_write_then_read wRt 0 (JsValue.num 2)
    { value := JsValue.num 1, subscribers := [] } (by decide)).2

/-- C9. For every id with no live signal, `read` returns `undefined`
rather than failing, `write` stores nothing and returns the empty
subscriber list, and the public `set` entry point leaves the runtime
unchanged and hence runs no effect. -/
theorem c9_missing_id_total (rt : Runtime) (id : SignalId) (v : JsValue) (fuel : Nat)
    (h : lookupA rt.signals id = none) :
    (read_signal rt id).2 = JsValue.undefined ∧
    write_signal rt id v = (rt, []) ∧
    signal_set fuel rt id v = rt := by
  refine ⟨?_, ?_, ?_⟩
  · rw [read_signal_snd]
    unfold valueOf
    rw [h]
  · unfold write_signal
    rw [h]
  · unfold signal_set write_signal
    rw [h]
    simp

/-- Witness for C9 at a concrete input. -/
theorem c9_missing_id_total_witness :
    (read_signal initRuntime 5).2 = JsValue.undefined ∧
    write_signal initRuntime 5 JsValue.null = (initRuntime, []) ∧
    signal_set 3 initRuntime 5 JsValue.null = initRuntime :=
  c9_missing_id_total initRuntime 5 JsValue.null 3 rfl

/-! ### Resource cache claims -/

/-- C5. `request(key, fetcher)` with an existing entry (any state)
returns that entry's current triple synchronously, leaves the cache
untouched and dispatches nothing; with no entry it inserts a loading
entry, returns the loading triple and dispatches the fetcher exactly
once.  Consequently a second request before the fetch resolves
dispatches nothing further, a request after resolution returns cached
data without dispatching, and a request after `invalidate(key)`
dispatches the fetcher again. -/
theorem c5_request_dedup (c : ResourceCache) (key : String) (f g : FetcherId) :
    (∀ st, lookupA c.entries key = some st → create_resource c key f = (c, tripleOf st)) ∧
    (lookupA c.entries key = none →
      (create_resource c key f).2 = (JsValue.null, true, JsValue.null) ∧
      lookupA (create_resource c key f).1.entries key =
        some { data := JsValue.null, loading := true, error := none,
               timestamp := c.now, refetch_fn := some f } ∧
      (create_resource c key f).1.dispatched = c.dispatched ++ [(key, f)] ∧
      create_resource (create_resource c key f).1 key g =
        ((create_resource c key f).1, (JsValue.null, true, JsValue.null))) ∧
    (lookupA (invalidate_resource c key).entries key = none ∧
     (create_resource (invalidate_resource c key) key f).1.dispatched =
       (invalidate_resource c key).dispatched ++ [(key, f)]) := by
  refine ⟨?_, ?_, ?_, ?_⟩
  · intro st h
    unfold create_resource
    rw [h]
  · intro h
    unfold create_resource
    rw [h]
    refine ⟨rfl, ?_, rfl, ?_⟩
    · simp [lookupA_insertA_self]
    · simp only [lookupA_insertA_self]
      unfold tripleOf
      rfl
  · unfold invalidate_resource
    simp [lookupA_eraseA_self]
  · unfold create_resource invalidate_resource
    simp [lookupA_eraseA_self]

/-- Witness for C5 at a concrete input. -/
theorem c5_request_dedup_witness :
    lookupA (create_resource initCache "posts" 7).1.entries "posts" =
      some { data := JsValue.null, loading := true, error := none,
             timestamp := 0, refetch_fn := some 7 } :=
  (((c5_request_dedup initCache "posts" 7 8).2.1 rfl).2.1)

/-- C10. The asynchronous completion handler mutates only an entry
that still exists under its key: when the key is absent (for instance
because `invalidate(key)` removed it and nothing re-created it) the
completion leaves the whole cache unchanged — it never re-inserts the
entry — and in every case all entries under other keys are untouched. -/
theorem c10_completion_requires_entry (c : ResourceCache) (key : String)
    (r : Except String JsValue) :
    (lookupA c.entries key = none → complete_fetch c key r = c) ∧
    (∀ k2, k2 ≠ key → lookupA (complete_fetch c key r).entries k2 = lookupA c.entries k2) ∧
    complete_fetch (invalidate_resource c key) key r = invalidate_resource c key ∧
    lookupA (complete_fetch (invalidate_resource c key) key r).entries key = none := by
  have habsent : ∀ c2 : ResourceCache, lookupA c2.entries key = none →
      complete_fetch c2 key r = c2 := by
    intro c2 h
    unfold complete_fetch
    rw [h]
  have herased : lookupA (invalidate_resource c key).entries key = none := by
    unfold invalidate_resource
    simp [lookupA_eraseA_self]
  refine ⟨habsent c, ?_, habsent _ herased, ?_⟩
  · intro k2 hk
    unfold complete_fetch
    cases h : lookupA c.entries key with
    | none => rfl
    | some st =>
        cases r with
        | ok d => simp [lookupA_insertA_ne _ _ _ _ (fun hke => hk hke.symm)]
        | error e => simp [lookupA_insertA_ne _ _ _ _ (fun hke => hk hke.symm)]
  · rw [habsent _ herased]
    exact herased

/-- Witness for C10 at a concrete input. -/
theorem c10_completion_requires_entry_witness :
    complete_fetch initCache "k" (Except.ok (JsValue.num 3)) = initCache :=
  (c10_completion_requires_entry initCache "k" (Except.ok (JsValue.num 3))).1 rfl

/-! ### Hydration bridge claims -/

/-- C2 counterexample: the snapshot does capture the entry's
`{data, loading}`, but `deserialize_state` never reads the `resources`
section — restoring onto a fresh client cache leaves that cache empty,
so the round trip does not preserve `{data, loading}` in the restored
cache. -/
theorem c2_counterexample :
    lookupA (serialize_state initRuntime c2srvCache).resources "k" =
      some (JsValue.num 1, false) ∧
    (deserialize_state initRuntime initCache (serialize_state initRuntime c2srvCache)).2 =
      initCache ∧
    lookupA (deserialize_state initRuntime initCache
      (serialize_state initRuntime c2srvCache)).2.entries "k" = none := by
  refine ⟨rfl, rfl, rfl⟩

/-- C2 (amended). `serialize()` captures each resource entry's
`{data, loading}` into the snapshot — the snapshot's resource records
have no error component — but `deserialize()` restores only signal
values and returns the resource cache exactly as it was: the entry's
`{data, loading}` survive only inside the snapshot and are never
installed into the restored cache, and its error field is never
captured at all. -/
theorem c2_resource_round_trip (rt : Runtime) (c : ResourceCache) (key : String)
    (st : ResourceState) (h : lookupA c.entries key = some st)
    (rt2 : Runtime) (c2 : ResourceCache) (snap : Snapshot) :
    lookupA (serialize_state rt c).resources key = some (st.data, st.loading) ∧
    (deserialize_state rt2 c2 snap).2 = c2 := by
  constructor
  · unfold serialize_state
    simp only
    rw [lookupA_map_value c.entries (fun r => (r.data, r.loading)) key, h]
    rfl
  · rfl

/-- Witness for C2's amended theorem at a concrete input. -/
theorem c2_resource_round_trip_witness :
    lookupA (serialize_state initRuntime c2srvCache).resources "k" =
      some (JsValue.num 1, false) ∧
    (deserialize_state initRuntime initCache (serialize_state initRuntime c2srvCache)).2 =
      initCache :=
  c2_resource_round_trip initRuntime c2srvCache "k"
    { data := .num 1, loading := false, error := some "boom",
      timestamp := 0, refetch_fn := none } rfl
    initRuntime initCache (serialize_state initRuntime c2srvCache)

/-! ### Error boundary claim -/

/-- C8. When the component fails, the guarded call invokes every
globally registered handler exactly once, in registration order, with
the failure value (the ghost call trace is exactly the handler list
paired with that value), and returns the fallback's result instead of
propagating the failure; `on_error` registers by appending. -/
theorem c8_error_boundary (handlers : List Nat) (e v : JsValue)
    (component fallback : Except JsValue JsValue)
    (hc : component = Except.error e) (hf : fallback = Except.ok v) :
    create_error_boundary handlers component fallback =
      (v, handlers.map (fun h => (h, e))) ∧
    (∀ h, on_error handlers h = handlers ++ [h]) := by
  subst hc hf
  exact ⟨rfl, fun _ => rfl⟩

/-- Witness for C8 at a concrete input. -/
theorem c8_error_boundary_witness :
    create_error_boundary [4, 9]
        (Except.error (JsValue.str "bad")) (Except.ok (JsValue.num 0)) =
      (JsValue.num 0, [(4, JsValue.str "bad"), (9, JsValue.str "bad")]) :=
  (c8_error_boundary [4, 9] (JsValue.str "bad") (JsValue.num 0)
    (Except.error (JsValue.str "bad")) (Except.ok (JsValue.num 0)) rfl rfl).1

/-! ### Exit-path claims for `run_effect` -/

/-- C3. `run_effect` sets `CURRENT_EFFECT` back to `None` on every
exit path: whatever the runtime state and effect id, the run ends with
no active computation; and when the body fails, the catching wrapper
built by `create_effect` converts the failure into an error report
(one ghost `errorLog` entry) on top of the state of the single body
execution — the failure is not re-thrown (the run returns a plain
state) and the body is not retried (the result is exactly the state of
that one execution). -/
theorem c3_exit_paths :
    (∀ fuel rt id, (run_effect (fuel + 1) rt id).current = none) ∧
    (∀ runE rt id b rt2 e,
        execBodyWith runE ({ rt with invocations := rt.invocations ++ [id] }) b =
          (rt2, some e) →
        runBodyCaught runE rt id b =
          ({ rt2 with errorLog := rt2.errorLog ++ [(id, e)] })) := by
  constructor
  · intro fuel rt id
    rfl
  · intro runE rt id b rt2 e h
    simp [runBodyCaught, h]

/-- Witness for C3 at a concrete input: a throwing body. -/
theorem c3_exit_paths_witness :
    runBodyCaught (fun rt _ => rt) initRuntime 0 (Body.fail "boom") =
      { initRuntime with invocations := [0], errorLog := [(0, "boom")] } :=
  c3_exit_paths.2 (fun rt _ => rt) initRuntime 0 (Body.fail "boom")
    ({ initRuntime with invocations := [0] }) "boom" rfl

/-- C4. `run_effect` unconditionally ends with `CURRENT_EFFECT = None`
for every input state — including states where another effect was
active, so nothing is saved or restored.  In the concrete re-entrant
scenario `reScen`, effect 1's body writes signal 0 (running subscriber
effect 0 nested, visible in the ghost invocation order), and its
remaining read of signal 1 then happens with no active computation:
signal 1 ends with no subscribers and effect 1 with no dependencies. -/
theorem c4_unconditional_clear :
    (∀ fuel rt id, (run_effect (fuel + 1) rt id).current = none) ∧
    reScen.invocations = [0, 1, 0] ∧
    depsOf reScen 1 = [] ∧
    subsOf reScen 1 = [] ∧
    valueOf reScen 0 = JsValue.num 5 ∧
    reScen.current = none := by
  exact ⟨fun _ _ _ => rfl, by decide, by decide, by decide, by decide, by decide⟩

/-! ### Lemmas for the C7 restore fold -/

theorem lookupA_eq_none_iff {κ α : Type} [DecidableEq κ]
    (l : List (κ × α)) (k : κ) :
    lookupA l k = none ↔ k ∉ l.map Prod.fst := by
  induction l with
  | nil => simp [lookupA]
  | cons p t ih =>
      obtain ⟨k', v'⟩ := p
      by_cases h : k' = k
      · subst h
        simp [lookupA]
      · have h2 : ¬ (k = k') := fun hc => h hc.symm
        simp [lookupA, h, h2, ih, List.mem_cons]

theorem map_fst_pair_map {κ α β : Type} (l : List (κ × α)) (f : α → β) :
    ((l.map (fun p => (p.1, f p.2))).map Prod.fst) = l.map Prod.fst := by
  induction l with
  | nil => rfl
  | cons p t ih => simp [ih]

theorem dss_effects (rt : Runtime) (k : SignalId) (v : JsValue) :
    (deserialize_signal_state rt k v).effects = rt.effects := by
  unfold deserialize_signal_state
  split <;> rfl

theorem dss_current (rt : Runtime) (k : SignalId) (v : JsValue) :
    (deserialize_signal_state rt k v).current = rt.current := by
  unfold deserialize_signal_state
  split <;> rfl

theorem dss_invocations (rt : Runtime) (k : SignalId) (v : JsValue) :
    (deserialize_signal_state rt k v).invocations = rt.invocations := by
  unfold deserialize_signal_state
  split <;> rfl

theorem dss_lookup_ne (rt : Runtime) (k : SignalId) (v : JsValue)
    (x : SignalId) (hx : x ≠ k) :
    lookupA (deserialize_signal_state rt k v).signals x = lookupA rt.signals x := by
  unfold deserialize_signal_state
  split
  · simp [lookupA_insertA_ne _ _ _ _ (fun h => hx h.symm)]
  · rfl

theorem dss_lookup_self_some (rt : Runtime) (k : SignalId) (v : JsValue)
    (st : SignalState) (h : lookupA rt.signals k = some st) :
    lookupA (deserialize_signal_state rt k v).signals k = some ({ st with value := v }) := by
  unfold deserialize_signal_state
  rw [h]
  simp [lookupA_insertA_self]

theorem dss_lookup_self_none (rt : Runtime) (k : SignalId) (v : JsValue)
    (h : lookupA rt.signals k = none) :
    deserialize_signal_state rt k v = rt := by
  unfold deserialize_signal_state
  rw [h]

theorem foldRestore_frame (L : List (SignalId × JsValue)) :
    ∀ rt : Runtime,
      (L.foldl (fun r p => deserialize_signal_state r p.1 p.2) rt).effects = rt.effects ∧
      (L.foldl (fun r p => deserialize_signal_state r p.1 p.2) rt).current = rt.current ∧
      (L.foldl (fun r p => deserialize_signal_state r p.1 p.2) rt).invocations =
        rt.invocations := by
  induction L with
  | nil => intro rt; exact ⟨rfl, rfl, rfl⟩
  | cons p t ih =>
      intro rt
      rw [List.foldl_cons]
      refine ⟨?_, ?_, ?_⟩
      · rw [(ih _).1, dss_effects]
      · rw [(ih _).2.1, dss_current]
      · rw [(ih _).2.2, dss_invocations]

theorem foldRestore_not_mem (L : List (SignalId × JsValue)) :
    ∀ (rt : Runtime) (x : SignalId), x ∉ L.map Prod.fst →
      lookupA (L.foldl (fun r p => deserialize_signal_state r p.1 p.2) rt).signals x =
        lookupA rt.signals x := by
  induction L with
  | nil => intro rt x _; rfl
  | cons p t ih =>
      intro rt x hx
      rw [List.foldl_cons]
      have hx1 : x ≠ p.1 := by
        intro h
        exact hx (by simp [h])
      have hx2 : x ∉ t.map Prod.fst := by
        intro h
        exact hx (by simp [h])
      rw [ih _ x hx2, dss_lookup_ne _ _ _ _ hx1]

theorem foldRestore_mem (L : List (SignalId × JsValue)) :
    ∀ (rt : Runtime) (x : SignalId) (v : JsValue),
      (L.map Prod.fst).Nodup → lookupA L x = some v →
      lookupA (L.foldl (fun r p => deserialize_signal_state r p.1 p.2) rt).signals x =
        (match lookupA rt.signals x with
         | some st => some ({ st with value := v })
         | none => none) := by
  induction L with
  | nil => intro rt x v _ h; exact absurd h (by simp [lookupA])
  | cons p t ih =>
      intro rt x v hnd h
      obtain ⟨k, w⟩ := p
      rw [List.map_cons] at hnd
      have hnd1 : k ∉ t.map Prod.fst := (List.nodup_cons.mp hnd).1
      have hnd2 : (t.map Prod.fst).Nodup := (List.nodup_cons.mp hnd).2
      rw [List.foldl_cons]
      by_cases hk : k = x
      · subst hk
        have hv : v = w := by
          unfold lookupA at h
          simp at h
          exact h.symm
        subst hv
        rw [foldRestore_not_mem t _ k hnd1]
        cases hst : lookupA rt.signals k with
        | some st => rw [dss_lookup_self_some rt k v st hst]
        | none => rw [dss_lookup_self_none rt k v hst, hst]
      · have ht : lookupA t x = some v := by
          unfold lookupA at h
          simp [hk] at h
          exact h
        rw [ih _ x v hnd2 ht, dss_lookup_ne _ _ _ _ (fun hc => hk hc.symm)]

/-- C7. `deserialize` applied to a `serialize` snapshot overwrites, for
every signal id present in both the snapshot and the live store, the
stored value directly with the snapshot value — restoring the server
value exactly while keeping the live entry's subscriber list — and
bypasses `write`: effects, the `CURRENT_EFFECT` slot and the ghost
invocation log are untouched (no subscriber notified, no effect run),
and the resource cache component is returned unchanged.  Ids in only
one of the two stores are not created and not modified.  (The
hypothesis that the serialized store's signal ids are distinct holds
for every store built by `create_signal`, which allocates fresh ids.) -/
theorem c7_deserialize_bypasses_write (rtS : Runtime) (cS : ResourceCache)
    (rtC : Runtime) (cC : ResourceCache)
    (hnd : (rtS.signals.map Prod.fst).Nodup) :
    (deserialize_state rtC cC (serialize_state rtS cS)).2 = cC ∧
    (deserialize_state rtC cC (serialize_state rtS cS)).1.effects = rtC.effects ∧
    (deserialize_state rtC cC (serialize_state rtS cS)).1.current = rtC.current ∧
    (deserialize_state rtC cC (serialize_state rtS cS)).1.invocations = rtC.invocations ∧
    (∀ id stS stC, lookupA rtS.signals id = some stS → lookupA rtC.signals id = some stC →
       lookupA (deserialize_state rtC cC (serialize_state rtS cS)).1.signals id =
         some ({ stC with value := stS.value })) ∧
    (∀ id, lookupA rtC.signals id = none →
       lookupA (deserialize_state rtC cC (serialize_state rtS cS)).1.signals id = none) ∧
    (∀ id, lookupA rtS.signals id = none →
       lookupA (deserialize_state rtC cC (serialize_state rtS cS)).1.signals id =
         lookupA rtC.signals id) := by
  have hsnap : (serialize_state rtS cS).signals =
      rtS.signals.map (fun p => (p.1, p.2.value)) := rfl
  have hkeys : ((serialize_state rtS cS).signals.map Prod.fst).Nodup := by
    rw [hsnap, map_fst_pair_map]
    exact hnd
  have hfst : (deserialize_state rtC cC (serialize_state rtS cS)).1 =
      (serialize_state rtS cS).signals.foldl
        (fun r p => deserialize_signal_state r p.1 p.2) rtC := rfl
  refine ⟨rfl, ?_, ?_, ?_, ?_, ?_, ?_⟩
  · rw [hfst]; exact (foldRestore_frame _ rtC).1
  · rw [hfst]; exact (foldRestore_frame _ rtC).2.1
  · rw [hfst]; exact (foldRestore_frame _ rtC).2.2
  · intro id stS stC hS hC
    have hlk : lookupA (serialize_state rtS cS).signals id = some stS.value := by
      rw [hsnap, lookupA_map_value, hS]
      rfl
    rw [hfst, foldRestore_mem _ rtC id stS.value hkeys hlk, hC]
  · intro id hC
    by_cases hmem : id ∈ (serialize_state rtS cS).signals.map Prod.fst
    · obtain ⟨v, hv⟩ : ∃ v, lookupA (serialize_state rtS cS).signals id = some v := by
        cases hl : lookupA (serialize_state rtS cS).signals id with
        | some v => exact ⟨v, rfl⟩
        | none => exact absurd hmem ((lookupA_eq_none_iff _ _).mp hl)
      rw [hfst, foldRestore_mem _ rtC id v hkeys hv, hC]
    · rw [hfst, foldRestore_not_mem _ rtC id hmem, hC]
  · intro id hS
    have hnone : lookupA (serialize_state rtS cS).signals id = none := by
      rw [hsnap, lookupA_map_value, hS]
      rfl
    have hmem : id ∉ (serialize_state rtS cS).signals.map Prod.fst :=
      (lookupA_eq_none_iff _ _).mp hnone
    rw [hfst, foldRestore_not_mem _ rtC id hmem]

/-- Witness for C7 at a concrete input: the client's signal 0 takes
the server value 42 while its subscriber list survives untouched. -/
theorem c7_deserialize_bypasses_write_witness :
    lookupA (deserialize_state c7cli initCache (serialize_state c7srv initCache)).1.signals 0 =
      some { value := JsValue.num 42, subscribers := [3] } :=
  (c7_deserialize_bypasses_write c7srv initCache c7cli initCache (by decide)).2.2.2.2.1
    0 { value := JsValue.num 42, subscribers := [] }
    { value := JsValue.num 0, subscribers := [3] } (by decide) (by decide)

/-! ### Cleanup-phase lemmas for the dependency-tracking claim -/

theorem lookupA_mem {κ α : Type} [DecidableEq κ]
    {l : List (κ × α)} {k : κ} {v : α} (h : lookupA l k = some v) : (k, v) ∈ l := by
  induction l with
  | nil => exact absurd h (by simp [lookupA])
  | cons p t ih =>
      obtain ⟨k', v'⟩ := p
      by_cases hk : k' = k
      · subst hk
        unfold lookupA at h
        simp at h
        subst h
        exact List.mem_cons_self _ _
      · unfold lookupA at h
        simp [hk] at h
        exact List.mem_cons_of_mem _ (ih h)

theorem subsConsistent_mem {rt : Runtime} {id : EffectId} (hcons : SubsConsistent rt id)
    {x : SignalId} (hx : id ∈ subsOf rt x) : x ∈ depsOf rt id := by
  unfold subsOf at hx
  cases hst : lookupA rt.signals x with
  | none => rw [hst] at hx; exact absurd hx (List.not_mem_nil id)
  | some st =>
      rw [hst] at hx
      exact hcons (x, st) (lookupA_mem hst) hx

theorem removeSub_effects (rt : Runtime) (s : SignalId) (eid : EffectId) :
    (removeSub rt s eid).effects = rt.effects := by
  unfold removeSub
  split <;> rfl

theorem removeSub_current (rt : Runtime) (s : SignalId) (eid : EffectId) :
    (removeSub rt s eid).current = rt.current := by
  unfold removeSub
  split <;> rfl

theorem removeSub_valueOf (rt : Runtime) (s : SignalId) (eid : EffectId) (x : SignalId) :
    valueOf (removeSub rt s eid) x = valueOf rt x := by
  unfold removeSub
  split
  next st hst =>
    unfold valueOf
    by_cases hx : s = x
    · subst hx
      simp [lookupA_insertA_self, hst]
    · simp [lookupA_insertA_ne _ _ _ _ hx]
  next => rfl

theorem removeSub_isSome (rt : Runtime) (s : SignalId) (eid : EffectId) (x : SignalId) :
    (lookupA (removeSub rt s eid).signals x).isSome = (lookupA rt.signals x).isSome := by
  unfold removeSub
  split
  next st hst =>
    by_cases hx : s = x
    · subst hx
      simp [lookupA_insertA_self, hst]
    · simp [lookupA_insertA_ne _ _ _ _ hx]
  next => rfl

theorem removeSub_subsOf (rt : Runtime) (s : SignalId) (eid : EffectId) (x : SignalId) :
    subsOf (removeSub rt s eid) x =
      if x = s then (subsOf rt x).filter (fun e => decide (e ≠ eid))
      else subsOf rt x := by
  unfold removeSub
  split
  next st hst =>
    unfold subsOf
    by_cases hx : x = s
    · subst hx
      simp [lookupA_insertA_self, hst]
    · simp [lookupA_insertA_ne _ _ _ _ (fun h => hx h.symm), hx]
  next hst =>
    unfold subsOf
    by_cases hx : x = s
    · subst hx
      simp [hst]
    · simp [hx]

theorem foldRemove_facts (eid : EffectId) (L : List SignalId) :
    ∀ rt : Runtime,
      ((L.foldl (fun r s => removeSub r s eid) rt).effects = rt.effects) ∧
      ((L.foldl (fun r s => removeSub r s eid) rt).current = rt.current) ∧
      (∀ x, valueOf (L.foldl (fun r s => removeSub r s eid) rt) x = valueOf rt x) ∧
      (∀ x, (lookupA (L.foldl (fun r s => removeSub r s eid) rt).signals x).isSome =
        (lookupA rt.signals x).isSome) ∧
      (∀ x j, j ≠ eid →
        (j ∈ subsOf (L.foldl (fun r s => removeSub r s eid) rt) x ↔ j ∈ subsOf rt x)) ∧
      (∀ x, x ∈ L → eid ∉ subsOf (L.foldl (fun r s => removeSub r s eid) rt) x) ∧
      (∀ x, x ∉ L → subsOf (L.foldl (fun r s => removeSub r s eid) rt) x = subsOf rt x) := by
  induction L with
  | nil =>
      intro rt
      exact ⟨rfl, rfl, fun _ => rfl, fun _ => rfl, fun _ _ _ => Iff.rfl,
             fun x hx => absurd hx (List.not_mem_nil x), fun _ _ => rfl⟩
  | cons a L ih =>
      intro rt
      rw [List.foldl_cons]
      obtain ⟨ihE, ihC, ihV, ihD, ihJ, ihMem, ihNot⟩ := ih (removeSub rt a eid)
      refine ⟨?_, ?_, ?_, ?_, ?_, ?_, ?_⟩
      · rw [ihE, removeSub_effects]
      · rw [ihC, removeSub_current]
      · intro x; rw [ihV, removeSub_valueOf]
      · intro x; rw [ihD, removeSub_isSome]
      · intro x j hj
        rw [ihJ x j hj, removeSub_subsOf]
        by_cases hx : x = a
        · simp [hx, List.mem_filter, hj]
        · simp [hx]
      · intro x hx
        rcases List.mem_cons.mp hx with h1 | h2
        · subst h1
          by_cases hmem : x ∈ L
          · exact ihMem x hmem
          · rw [ihNot x hmem, removeSub_subsOf]
            simp [List.mem_filter]
        · exact ihMem x h2
      · intro x hx
        have hxa : x ≠ a := fun h => hx (by rw [h]; exact List.mem_cons_self a L)
        have hxL : x ∉ L := fun h => hx (List.mem_cons_of_mem a h)
        rw [ihNot x hxL, removeSub_subsOf]
        simp [hxa]

theorem clearDeps_signals (rt : Runtime) (id : EffectId) :
    (clearDeps rt id).signals = rt.signals := by
  unfold clearDeps
  split <;> rfl

theorem clearDeps_current (rt : Runtime) (id : EffectId) :
    (clearDeps rt id).current = rt.current := by
  unfold clearDeps
  split <;> rfl

theorem clearDeps_lookup_self (rt : Runtime) (id : EffectId) (e : Effect)
    (he : lookupA rt.effects id = some e) :
    lookupA (clearDeps rt id).effects id = some { body := e.body, dependencies := [] } := by
  unfold clearDeps
  rw [he]
  simp [lookupA_insertA_self]

theorem clearDeps_lookup_ne (rt : Runtime) (id : EffectId) (j : EffectId) (hj : j ≠ id) :
    lookupA (clearDeps rt id).effects j = lookupA rt.effects j := by
  unfold clearDeps
  split
  · simp [lookupA_insertA_ne _ _ _ _ (fun h => hj h.symm)]
  · rfl

/-- Full characterization of the cleanup phase on a consistent state:
values, domain, other effects and other effects' subscriptions are
untouched; the running effect subscribes to nothing and its dependency
list is empty (body kept). -/
theorem cleanup_char (rt : Runtime) (id : EffectId) (e0 : Effect)
    (he : lookupA rt.effects id = some e0) (hcons : SubsConsistent rt id) :
    (cleanupEffect rt id).current = rt.current ∧
    (∀ x, valueOf (cleanupEffect rt id) x = valueOf rt x) ∧
    (∀ x, (lookupA (cleanupEffect rt id).signals x).isSome =
      (lookupA rt.signals x).isSome) ∧
    (∀ x, id ∉ subsOf (cleanupEffect rt id) x) ∧
    (∀ x j, j ≠ id → (j ∈ subsOf (cleanupEffect rt id) x ↔ j ∈ subsOf rt x)) ∧
    lookupA (cleanupEffect rt id).effects id =
      some { body := e0.body, dependencies := [] } ∧
    (∀ j, j ≠ id → lookupA (cleanupEffect rt id).effects j = lookupA rt.effects j) := by
  obtain ⟨hE, hC, hV, hD, hJ, hMem, hNot⟩ := foldRemove_facts id (depsOf rt id) rt
  have hsig : (cleanupEffect rt id).signals =
      ((depsOf rt id).foldl (fun r s => removeSub r s id) rt).signals :=
    clearDeps_signals _ id
  have hsubs : ∀ x, subsOf (cleanupEffect rt id) x =
      subsOf ((depsOf rt id).foldl (fun r s => removeSub r s id) rt) x :=
    fun x => subsOf_eq_of_signals hsig x
  refine ⟨?_, ?_, ?_, ?_, ?_, ?_, ?_⟩
  · rw [show (cleanupEffect rt id).current =
        ((depsOf rt id).foldl (fun r s => removeSub r s id) rt).current from
        clearDeps_current _ id, hC]
  · intro x
    rw [valueOf_eq_of_signals hsig x, hV]
  · intro x
    rw [show lookupA (cleanupEffect rt id).signals x =
        lookupA ((depsOf rt id).foldl (fun r s => removeSub r s id) rt).signals x from
        by rw [hsig], hD]
  · intro x
    rw [hsubs x]
    by_cases hmem : x ∈ depsOf rt id
    · exact hMem x hmem
    · rw [hNot x hmem]
      intro hin
      exact hmem (subsConsistent_mem hcons hin)
  · intro x j hj
    rw [hsubs x]
    exact hJ x j hj
  · have hl : lookupA ((depsOf rt id).foldl (fun r s => removeSub r s id) rt).effects id =
        some e0 := by rw [hE]; exact he
    exact clearDeps_lookup_self _ id e0 hl
  · intro j hj
    have hcd := clearDeps_lookup_ne
      ((depsOf rt id).foldl (fun r s => removeSub r s id) rt) id j hj
    rw [hE] at hcd
    exact hcd

/-! ### The read step and pure-body execution preserve `Mid` -/

/-- One `read` performed by the running effect extends the invariant
by the signal just read. -/
theorem mid_read (id : EffectId) (rt0 rt : Runtime) (acc : List SignalId) (s : SignalId)
    (h : Mid id rt0 rt acc) : Mid id rt0 (read_signal rt s).1 (acc ++ [s]) := by
  have hfst : (read_signal rt s).1 = addDependency (addSubscriber rt s id) id s := by
    unfold read_signal
    rw [h.curr]
  rw [hfst]
  refine ⟨?_, ?_, ?_, ?_, ?_, ?_, ?_⟩
  · rw [addDependency_current, addSubscriber_current]
    exact h.curr
  · intro x
    rw [valueOf_eq_of_signals (addDependency_signals _ _ _) x, addSubscriber_valueOf]
    exact h.vals x
  · intro x
    rw [show (addDependency (addSubscriber rt s id) id s).signals =
          (addSubscriber rt s id).signals from addDependency_signals _ _ _,
        addSubscriber_isSome]
    exact h.dom x
  · intro x
    rw [show (id ∈ subsOf (addDependency (addSubscriber rt s id) id s) x) =
          (id ∈ subsOf (addSubscriber rt s id) x) from
          by rw [subsOf_eq_of_signals (addDependency_signals _ _ _) x]]
    by_cases hx : x = s
    · subst hx
      rw [addSubscriber_mem_self, h.dom x]
      simp [List.mem_append]
    · rw [show subsOf (addSubscriber rt s id) x = subsOf rt x from
          addSubscriber_subsOf_ne rt s id x hx]
      rw [h.subSelf x]
      simp [List.mem_append, hx]
  · intro x j hj
    rw [show (j ∈ subsOf (addDependency (addSubscriber rt s id) id s) x) =
          (j ∈ subsOf (addSubscriber rt s id) x) from
          by rw [subsOf_eq_of_signals (addDependency_signals _ _ _) x]]
    rw [addSubscriber_mem_other rt s id x j hj]
    exact h.subOther x j hj
  · obtain ⟨e0, d, he0, heid, hd⟩ := h.effSelf
    have heidA : lookupA (addSubscriber rt s id).effects id =
        some { body := e0.body, dependencies := d } := by
      rw [addSubscriber_effects]
      exact heid
    obtain ⟨d2, hd2, hd2mem⟩ :=
      addDependency_lookup_self (addSubscriber rt s id) id s _ heidA
    refine ⟨e0, d2, he0, hd2, ?_⟩
    intro x
    rw [hd2mem x]
    simp only [List.mem_append, List.mem_singleton]
    rw [hd x]
    tauto
  · intro j hj
    rw [addDependency_effects_other _ _ _ j hj, addSubscriber_effects]
    exact h.effOther j hj

/-- `bodyReads` depends only on stored values. -/
theorem bodyReads_congr {rt1 rt2 : Runtime} (h : ∀ s, valueOf rt1 s = valueOf rt2 s) :
    ∀ b : Body, bodyReads rt1 b = bodyReads rt2 b := by
  intro b
  induction b with
  | nil => rfl
  | read s k ih => simp [bodyReads, ih]
  | write s v k ih => simp [bodyReads, ih]
  | condRead s t e k iht ihe ihk => simp [bodyReads, iht, ihe, ihk, h s]
  | fail msg => rfl

/-- Executing a pure body from a `Mid` state succeeds and extends the
invariant by exactly the body's read trace (taken over the body-start
values `rt0`). -/
theorem mid_exec (id : EffectId) (rt0 : Runtime) :
    ∀ b : Body, isPure b = true →
    ∀ (runE : Runtime → EffectId → Runtime) (rt : Runtime) (acc : List SignalId),
      Mid id rt0 rt acc →
      (execBodyWith runE rt b).2 = none ∧
      Mid id rt0 (execBodyWith runE rt b).1 (acc ++ bodyReads rt0 b) := by
  intro b
  induction b with
  | nil =>
      intro _ runE rt acc h
      refine ⟨rfl, ?_⟩
      simpa [bodyReads] using h
  | read s k ih =>
      intro hp runE rt acc h
      have hp2 : isPure k = true := by simpa [isPure] using hp
      have h1 := mid_read id rt0 rt acc s h
      have h2 := ih hp2 runE (read_signal rt s).1 (acc ++ [s]) h1
      refine ⟨h2.1, ?_⟩
      have hacc : acc ++ bodyReads rt0 (.read s k) =
          (acc ++ [s]) ++ bodyReads rt0 k := by
        simp [bodyReads]
      rw [show execBodyWith runE rt (.read s k) =
            execBodyWith runE (read_signal rt s).1 k from rfl, hacc]
      exact h2.2
  | write s v k ih =>
      intro hp
      exact absurd hp (by simp [isPure])
  | condRead s t e k iht ihe ihk =>
      intro hp runE rt acc h
      have hpt : isPure t = true := by
        have := hp
        simp [isPure] at this
        exact this.1.1
      have hpe : isPure e = true := by
        have := hp
        simp [isPure] at this
        exact this.1.2
      have hpk : isPure k = true := by
        have := hp
        simp [isPure] at this
        exact this.2
      have h1 := mid_read id rt0 rt acc s h
      by_cases htr : truthy (valueOf rt0 s) = true
      · have hv : truthy (read_signal rt s).2 = true := by
          rw [read_signal_snd, h.vals s]
          exact htr
        have hstep : execBodyWith runE rt (.condRead s t e k) =
            (match execBodyWith runE (read_signal rt s).1 t with
             | (rt2, none) => execBodyWith runE rt2 k
             | r => r) := by
          show (match (if truthy (read_signal rt s).2
                       then execBodyWith runE (read_signal rt s).1 t
                       else execBodyWith runE (read_signal rt s).1 e) with
                | (rt2, none) => execBodyWith runE rt2 k
                | r => r) = _
          rw [hv]
          simp
        have h2 := iht hpt runE (read_signal rt s).1 (acc ++ [s]) h1
        rcases hx : execBodyWith runE (read_signal rt s).1 t with ⟨rtT, oT⟩
        obtain ⟨ho, hmid⟩ := h2
        rw [hx] at ho hmid
        simp only at ho hmid
        subst ho
        have h3 := ihk hpk runE rtT ((acc ++ [s]) ++ bodyReads rt0 t) hmid
        have hred : execBodyWith runE rt (.condRead s t e k) =
            execBodyWith runE rtT k := by
          rw [hstep, hx]
        have hacc : acc ++ bodyReads rt0 (.condRead s t e k) =
            (((acc ++ [s]) ++ bodyReads rt0 t) ++ bodyReads rt0 k) := by
          simp [bodyReads, htr]
        rw [hred, hacc]
        exact h3
      · have hv : truthy (read_signal rt s).2 = false := by
          rw [read_signal_snd, h.vals s]
          exact Bool.not_eq_true _ ▸ (by simpa using htr)
        have hstep : execBodyWith runE rt (.condRead s t e k) =
            (match execBodyWith runE (read_signal rt s).1 e with
             | (rt2, none) => execBodyWith runE rt2 k
             | r => r) := by
          show (match (if truthy (read_signal rt s).2
                       then execBodyWith runE (read_signal rt s).1 t
                       else execBodyWith runE (read_signal rt s).1 e) with
                | (rt2, none) => execBodyWith runE rt2 k
                | r => r) = _
          rw [hv]
          simp
        have h2 := ihe hpe runE (read_signal rt s).1 (acc ++ [s]) h1
        rcases hx : execBodyWith runE (read_signal rt s).1 e with ⟨rtE, oE⟩
        obtain ⟨ho, hmid⟩ := h2
        rw [hx] at ho hmid
        simp only at ho hmid
        subst ho
        have h3 := ihk hpk runE rtE ((acc ++ [s]) ++ bodyReads rt0 e) hmid
        have hred : execBodyWith runE rt (.condRead s t e k) =
            execBodyWith runE rtE k := by
          rw [hstep, hx]
        have hacc : acc ++ bodyReads rt0 (.condRead s t e k) =
            (((acc ++ [s]) ++ bodyReads rt0 e) ++ bodyReads rt0 k) := by
          simp [bodyReads, htr]
        rw [hred, hacc]
        exact h3
  | fail msg =>
      intro hp
      exact absurd hp (by simp [isPure])

/-- C1 (amended).  For a run of an effect whose body performs no
writes (hence triggers no nested effect run) and does not throw,
started from a consistent state: after the completed run the effect's
dependency list holds exactly the signals the run read, a live
signal's subscriber list contains the effect iff the run read it, and
every other effect's subscriptions are untouched.  The concrete
conjuncts are the conditional-dependency scenario: the effect reads A
(signal 1) only while B (signal 0) is truthy; after B becomes false it
is unsubscribed from A, a change of A then does not re-run it (ghost
invocation log unchanged), and once B becomes true again it
resubscribes to A. -/
theorem c1_dependency_tracking :
    (∀ fuel rt id e0,
        lookupA rt.effects id = some e0 → isPure e0.body = true → SubsConsistent rt id →
        ((∀ s, s ∈ depsOf (run_effect (fuel + 1) rt id) id ↔ s ∈ bodyReads rt e0.body) ∧
         (∀ s st, lookupA (run_effect (fuel + 1) rt id).signals s = some st →
            (id ∈ st.subscribers ↔ s ∈ bodyReads rt e0.body)) ∧
         (∀ s j, j ≠ id →
            (j ∈ subsOf (run_effect (fuel + 1) rt id) s ↔ j ∈ subsOf rt s)))) ∧
    subsOf scen0 1 = [0] ∧
    subsOf scen1 1 = [] ∧
    scen2.invocations = scen1.invocations ∧
    subsOf scen3 1 = [0] := by
  refine ⟨?_, by decide, by decide, by decide, by decide⟩
  intro fuel rt id e0 he hp hcons
  obtain ⟨cC, cV, cD, cNoSub, cJ, cSelf, cOther⟩ := cleanup_char rt id e0 he hcons
  have he2 : lookupA ({ cleanupEffect rt id with current := some id } : Runtime).effects id =
      some { body := e0.body, dependencies := [] } := cSelf
  have hrun : run_effect (fuel + 1) rt id =
      { runBodyCaught (run_effect fuel)
          ({ cleanupEffect rt id with current := some id }) id e0.body with
        current := none } := by
    show ({ (match lookupA ({ cleanupEffect rt id with current := some id } : Runtime).effects id with
             | some e =>
                 runBodyCaught (run_effect fuel)
                   ({ cleanupEffect rt id with current := some id }) id e.body
             | none => ({ cleanupEffect rt id with current := some id } : Runtime)) with
           current := none } : Runtime) = _
    rw [he2]
  have hmid0 : Mid id ({ cleanupEffect rt id with current := some id })
      ({ { cleanupEffect rt id with current := some id } with
          invocations := ({ cleanupEffect rt id with current := some id } : Runtime).invocations ++ [id] }) [] := by
    refine ⟨rfl, fun _ => rfl, fun _ => rfl, ?_, fun _ _ _ => Iff.rfl, ?_, fun _ _ => rfl⟩
    · intro x
      simp only [List.not_mem_nil, false_and, iff_false]
      exact cNoSub x
    · exact ⟨{ body := e0.body, dependencies := [] }, [], he2, he2, fun _ => Iff.rfl⟩
  have hpure := mid_exec id ({ cleanupEffect rt id with current := some id }) e0.body hp
      (run_effect fuel)
      ({ { cleanupEffect rt id with current := some id } with
          invocations := ({ cleanupEffect rt id with current := some id } : Runtime).invocations ++ [id] })
      [] hmid0
  rcases hx : execBodyWith (run_effect fuel)
      ({ { cleanupEffect rt id with current := some id } with
          invocations := ({ cleanupEffect rt id with current := some id } : Runtime).invocations ++ [id] })
      e0.body with ⟨rtF, oF⟩
  obtain ⟨ho, hmid⟩ := hpure
  rw [hx] at ho hmid
  simp only at ho hmid
  subst ho
  have hrbc : runBodyCaught (run_effect fuel)
      ({ cleanupEffect rt id with current := some id }) id e0.body = rtF := by
    show (match execBodyWith (run_effect fuel)
            ({ { cleanupEffect rt id with current := some id } with
                invocations := ({ cleanupEffect rt id with current := some id } : Runtime).invocations ++ [id] })
            e0.body with
          | (rt2, none) => rt2
          | (rt2, some e) => { rt2 with errorLog := rt2.errorLog ++ [(id, e)] }) = rtF
    rw [hx]
  have hrun2 : run_effect (fuel + 1) rt id = { rtF with current := none } := by
    rw [hrun, hrbc]
  have hv2 : ∀ s, valueOf ({ cleanupEffect rt id with current := some id } : Runtime) s =
      valueOf rt s := fun s => cV s
  have hreads : bodyReads ({ cleanupEffect rt id with current := some id }) e0.body =
      bodyReads rt e0.body := bodyReads_congr hv2 e0.body
  rw [List.nil_append, hreads] at hmid
  refine ⟨?_, ?_, ?_⟩
  · intro s
    have hdeq : depsOf (run_effect (fuel + 1) rt id) id = depsOf rtF id := by
      rw [hrun2]
      rfl
    rw [hdeq]
    obtain ⟨e1, d, he1, heF, hd⟩ := hmid.effSelf
    show s ∈ (match lookupA rtF.effects id with
              | some eff => eff.dependencies
              | none => []) ↔ _
    rw [heF]
    exact hd s
  · intro s st hst
    have hst2 : lookupA rtF.signals s = some st := by
      rw [hrun2] at hst
      exact hst
    have hmemiff : (id ∈ subsOf rtF s) = (id ∈ st.subscribers) := by
      unfold subsOf
      rw [hst2]
    have hsome : (lookupA ({ cleanupEffect rt id with current := some id } : Runtime).signals s).isSome = true := by
      rw [← hmid.dom s, hst2]
      rfl
    constructor
    · intro hin
      have := (hmid.subSelf s).mp (hmemiff ▸ hin)
      exact this.1
    · intro hr
      have := (hmid.subSelf s).mpr ⟨hr, hsome⟩
      exact hmemiff ▸ this
  · intro s j hj
    have hseq : subsOf (run_effect (fuel + 1) rt id) s = subsOf rtF s := by
      rw [hrun2]
      rfl
    rw [hseq, hmid.subOther s j hj]
    exact cJ s j hj

/-- C1 counterexample (refutes the claim as universally stated): in
the re-entrant scenario `reScen`, effect 1's most recent (and only)
run executed the straight-line body `reBody`, whose read trace is
exactly signal 1 — yet after that completed run effect 1's dependency
list is empty and signal 1's subscriber list does not contain it,
because the nested run triggered by the body's write cleared
`CURRENT_EFFECT` before the read happened. -/
theorem c1_dependency_tracking_counterexample :
    bodyReads reScen reBody = [1] ∧
    depsOf reScen 1 = [] ∧
    subsOf reScen 1 = [] := by
  refine ⟨by decide, by decide, by decide⟩

/-- Witness for C1's amended theorem at a concrete input: running the
registered effect of `c1wRt` (body `read 0`) subscribes it to signal 0
and records dependency 0. -/
theorem c1_dependency_tracking_witness :
    (0 ∈ depsOf (run_effect 1 c1wRt 0) 0) ∧
    (0 ∈ subsOf (run_effect 1 c1wRt 0) 0) := by
  have hmain := (c1_dependency_tracking.1 0 c1wRt 0
    { body := .read 0 .nil, dependencies := [] }
    (by decide) (by decide) (by decide))
  refine ⟨(hmain.1 0).mpr (by decide), ?_⟩
  cases hst : lookupA (run_effect 1 c1wRt 0).signals 0 with
  | none => exact absurd hst (by decide)
  | some st =>
      have hmem := (hmain.2.1 0 st hst).mpr (by decide)
      unfold subsOf
      rw [hst]
      exact hmem

end Velocity
